import Mathlib

/-!
Verification of the quiz-server core of `the-quiz-game` (Go).

The definitions below are a shallow embedding of the code in
`pkg/quiz-server/session.go` and `pkg/quiz-server/session-manager.go`.
Go maps are embedded as association lists with insert-or-replace
semantics (`mapInsert`), lookup (`mapLookup`) and delete (`mapErase`);
Go `int` values that take part in comparisons or can go negative
(scores, `activeCount`, configured maxima, answer indices) are `Int`;
the current-question cursor starts at 0 and is only incremented, so it
is a `Nat`.  Network publishes and registry round trips are embedded as
explicit actions in traces or as labelled transition steps; real-time
waits (`time.Sleep`, `time.After`) only influence scheduling and are
dropped.  Session identifiers produced by `generateUniqueID` (declared
outside the embedded sources) are embedded as naturals drawn from a
fresh counter.
-/

namespace QuizGame

/-! ## Association-list maps with Go map semantics -/

/-- Lookup in an association list; the embedding of a Go map read. -/
def mapLookup {K : Type} [DecidableEq K] {α : Type} : List (K × α) → K → Option α
  | [], _ => none
  | (k', v') :: rest, k => if k' = k then some v' else mapLookup rest k

/-- Insert-or-replace; the embedding of a Go map write `m[k] = v`. -/
def mapInsert {K : Type} [DecidableEq K] {α : Type} : List (K × α) → K → α → List (K × α)
  | [], k, v => [(k, v)]
  | (k', v') :: rest, k, v =>
      if k' = k then (k, v) :: rest else (k', v') :: mapInsert rest k v

/-- Remove a key; the embedding of Go `delete(m, k)` (keys are kept
without duplicates, so removing the first hit removes the key). -/
def mapErase {K : Type} [DecidableEq K] {α : Type} : List (K × α) → K → List (K × α)
  | [], _ => []
  | (k', v') :: rest, k => if k' = k then rest else (k', v') :: mapErase rest k

/-- The list of keys of an embedded map. -/
def mapKeys {K : Type} {α : Type} (l : List (K × α)) : List K :=
  l.map Prod.fst

/-! ## Data model (`session.go`, `session-manager.go`) -/

/-- Modelled from the spec: the `Question` type is declared outside the
embedded source files; per spec section 3 it is a prompt, an ordered
list of answer-option texts and a 0-based correct-answer index.  Field
names follow the uses `q.Question`, `q.PossibleAnswers`,
`q.CorrectAnswer` in `session.go`. -/
structure Question where
  question : String
  possibleAnswers : List String
  correctAnswer : Int
deriving DecidableEq

/-- The `Player` struct of `session.go`. -/
structure Player where
  name : String
  id : String
  score : Int
  hasVoted : Bool
deriving DecidableEq

/-- The mutable state of the `Session` struct of `session.go`:
configuration (`maxPlayersPerSession`, the question list; the
per-question duration only affects real-time scheduling and is
dropped), the player map, the current-question cursor and the session
identifier.  Channel, context and lock fields have no state content in
the embedding: every lock-protected accessor becomes one atomic
function application. -/
structure Session where
  id : Nat
  maxPlayersPerSession : Int
  questions : List Question
  players : List (String × Player)
  currentQuestion : Nat
deriving DecidableEq

/-- `getCurrentQuestion` of `session.go` reads
`s.questions[s.currentQuestion]`; the read is partial in Go (it panics
out of bounds), so the embedding returns an `Option`. -/
def Session.getCurrentQuestion? (s : Session) : Option Question :=
  s.questions.get? s.currentQuestion

/-- Outcome of `Session.SubmitAnswer`: the Go function either returns
an error, returns nil, or panics on an out-of-range question read. -/
inductive SubmitOutcome where
  | crash
  | err (msg : String)
  | ok
deriving DecidableEq

/-- `Session.SubmitAnswer` of `session.go` (lines 135-151).  The Go
method mutates the receiver through `setPlayer`; the embedding returns
the outcome together with the session state after the call (unchanged
on the error paths, which return before any write). -/
def Session.submitAnswer (s : Session) (pid : String) (answer : Int) :
    SubmitOutcome × Session :=
  match mapLookup s.players pid with
  | none => (.err "player does not exist", s)
  | some p =>
    if p.hasVoted then (.err "player has already voted", s)
    else
      match s.getCurrentQuestion? with
      | none => (.crash, s)
      | some q =>
        let p1 := if answer = q.correctAnswer then { p with score := p.score + 1 } else p
        (.ok, { s with players := mapInsert s.players pid { p1 with hasVoted := true } })

/-- `Session.AddPlayer` of `session.go` (lines 95-114).  Returns the
new session state and whether the call launched `startQuiz` (the Go
code starts the background progression goroutine exactly when the
player count equals the maximum right after the insert). -/
def Session.addPlayer (s : Session) (p : Player) : Except String (Session × Bool) :=
  if (s.players.length : Int) < s.maxPlayersPerSession then
    let players := mapInsert s.players p.id
      { name := p.name, id := p.id, score := 0, hasVoted := false }
    Except.ok ({ s with players }, decide ((players.length : Int) = s.maxPlayersPerSession))
  else
    Except.error "Cannot add new player max players reached"

/-- The payload struct built by `publishQuestion` (`session.go` lines
160-169): the prompt and the ordered option texts, nothing else. -/
structure QuestionPayload where
  question : String
  possibleAnswers : List String
deriving DecidableEq

/-- The payload `publishQuestion` sends on the `new_question` event. -/
def questionPayload (q : Question) : QuestionPayload :=
  { question := q.question, possibleAnswers := q.possibleAnswers }

/-- The flag-reset loop at the top of `publishQuestion`: every player
gets `hasVoted = false`. -/
def Session.resetVotes (s : Session) : Session :=
  { s with players := s.players.map (fun e => (e.1, { e.2 with hasVoted := false })) }

/-- The scoreboard built by `publishScoreBoard`: display name mapped to
score, name collisions overwriting (Go builds a `map[string]int`; Go
map iteration order is unspecified, the embedding fixes the stored
order, which no claim depends on). -/
def scoreBoardOf (s : Session) : List (String × Int) :=
  s.players.foldl (fun acc e => mapInsert acc e.2.name e.2.score) []

/-! ## The session registry (`session-manager.go`) -/

/-- The four `SessionManagerCommandType` values, each with the command
fields `handleCommand` reads for it. -/
inductive Command where
  | submitAnswer (pid : String) (answer : Int) (sid : Nat)
  | joinSession (p : Player)
  | moveToInProgress (sid : Nat)
  | endSession (sid : Nat)
deriving DecidableEq

/-- `SessionManagerResponse`: an optional error and the session id a
join response carries. -/
structure Resp where
  error : Option String
  sessionId : Option Nat
deriving DecidableEq

/-- The `SessionManager` struct: the two partitions, the configured
maxima, the active-session counter (a Go `int`, so an `Int`: the code
can drive it negative), the loaded questions, and the counter that
embeds `generateUniqueID`. -/
structure Manager where
  waitingRooms : List (Nat × Session)
  inProgress : List (Nat × Session)
  maxPlayersPerSession : Int
  activeCount : Int
  maxSessions : Int
  questions : List Question
  nextId : Nat
deriving DecidableEq

/-- `NewSessionManager` state: empty partitions, zero active count. -/
def initialManager (maxSessions maxPlayersPerSession : Int) (qs : List Question) : Manager :=
  { waitingRooms := [], inProgress := [], maxPlayersPerSession := maxPlayersPerSession,
    activeCount := 0, maxSessions := maxSessions, questions := qs, nextId := 0 }

/-- `createSession` of `session-manager.go` (lines 70-88).  Modelled
from the spec where the source is outside src: `generateUniqueID`
returns a fresh unique identifier, embedded as the next value of a
counter. -/
def Manager.createSession (m : Manager) : Except String (Nat × Manager) :=
  if m.maxSessions ≤ m.activeCount then
    Except.error "max sessions reached, could not create a session to join"
  else
    let sid := m.nextId
    let sess : Session :=
      { id := sid, maxPlayersPerSession := m.maxPlayersPerSession,
        questions := m.questions, players := [], currentQuestion := 0 }
    Except.ok (sid,
      { m with waitingRooms := mapInsert m.waitingRooms sid sess,
               activeCount := m.activeCount + 1, nextId := m.nextId + 1 })

/-- `handleCommand` of `session-manager.go` (lines 90-155).  The result
is the response, the manager state after the command, and the session
id for which the command launched a `startQuiz` goroutine (the launch
happens inside `AddPlayer`; the goroutine then sends the
`MoveSessionToInProgress` command).  `none` as the overall result
embeds a Go panic (an out-of-range question read inside
`Session.SubmitAnswer`): the command never completes. -/
def Manager.handleCommand (m : Manager) (cmd : Command) :
    Option (Resp × Manager × Option Nat) :=
  match cmd with
  | .endSession sid =>
      -- the source logs when the id is absent but still decrements
      -- activeCount and deletes from the in-progress map
      some ({ error := none, sessionId := none },
            { m with activeCount := m.activeCount - 1,
                     inProgress := mapErase m.inProgress sid }, none)
  | .moveToInProgress sid =>
      match mapLookup m.waitingRooms sid with
      | none => some ({ error := some "session not found", sessionId := none }, m, none)
      | some sess =>
          some ({ error := none, sessionId := none },
                { m with inProgress := mapInsert m.inProgress sid sess,
                         waitingRooms := mapErase m.waitingRooms sid }, none)
  | .submitAnswer pid answer sid =>
      match mapLookup m.inProgress sid with
      | none => some ({ error := some "session not found", sessionId := none }, m, none)
      | some sess =>
          match sess.submitAnswer pid answer with
          | (.crash, _) => none
          | (.err msg, s') =>
              some ({ error := some msg, sessionId := none },
                    { m with inProgress := mapInsert m.inProgress sid s' }, none)
          | (.ok, s') =>
              some ({ error := none, sessionId := none },
                    { m with inProgress := mapInsert m.inProgress sid s' }, none)
  | .joinSession p =>
      match m.waitingRooms with
      | [] =>
          match m.createSession with
          | .error e => some ({ error := some e, sessionId := none }, m, none)
          | .ok (sid, m1) =>
              match mapLookup m1.waitingRooms sid with
              | none => none
              | some sess =>
                  match sess.addPlayer p with
                  | .error e => some ({ error := some e, sessionId := some sid }, m1, none)
                  | .ok (s', started) =>
                      some ({ error := none, sessionId := some sid },
                            { m1 with waitingRooms := mapInsert m1.waitingRooms sid s' },
                            if started then some sid else none)
      | (sid, sess) :: _ =>
          -- Go picks an arbitrary waiting room from map iteration; the
          -- embedding picks the first stored one (no claim depends on
          -- the choice: the claims' runs have at most one waiting room)
          match sess.addPlayer p with
          | .error e => some ({ error := some e, sessionId := some sid }, m, none)
          | .ok (s', started) =>
              some ({ error := none, sessionId := some sid },
                    { m with waitingRooms := mapInsert m.waitingRooms sid s' },
                    if started then some sid else none)

/-- Run a sequence of commands through the registry actor, stopping at
a panic. -/
def runCommands (m : Manager) : List Command → Option Manager
  | [] => some m
  | c :: cs =>
      match m.handleCommand c with
      | none => none
      | some (_, m', _) => runCommands m' cs

/-- One `JoinSession` command followed, when the join filled the
session, by the `MoveSessionToInProgress` command its `startQuiz`
goroutine sends (the schedule in which the move is processed before
the next join; the second result counts completed waiting-to-in-progress
transitions). -/
def Manager.joinOne (m : Manager) (p : Player) : Option (Manager × Nat) :=
  match m.handleCommand (.joinSession p) with
  | none => none
  | some (_, m1, none) => some (m1, 0)
  | some (_, m1, some sid) =>
      match m1.handleCommand (.moveToInProgress sid) with
      | none => none
      | some (r, m2, _) => some (m2, if r.error = none then 1 else 0)

/-- A sequence of `JoinSession` commands, counting the
waiting-to-in-progress transitions they trigger. -/
def joinAll (m : Manager) : List Player → Option (Manager × Nat)
  | [] => some (m, 0)
  | p :: ps =>
      match m.joinOne p with
      | none => none
      | some (m1, k) =>
          match joinAll m1 ps with
          | none => none
          | some (m2, k') => some (m2, k + k')

/-! ## The progression task as a trace (`startQuiz`, `session.go` 182-242)

The background goroutine in isolation: its observable actions are
publishes on the Broadcast Channel and requests sent to the registry.
Whether each successive publish call succeeds is an input (the oracle
`pub`, indexed by the number of publish calls made so far), as is the
outcome of the partition-move request. -/

/-- A payload sent on the Broadcast Channel. -/
inductive Payload where
  | text (s : String)
  | questionP (p : QuestionPayload)
  | scoreboard (entries : List (String × Int))
deriving DecidableEq

/-- An observable action of the progression task. -/
inductive Action where
  | published (event : String) (payload : Payload) (ok : Bool)
  | moveRequest (ok : Bool)
  | endRequest
deriving DecidableEq

/-- `endSession` (`session.go` 225-242): publish `quiz-end` (the error
is only logged), then send the `EndSession` command (whose response
always carries a nil error, so the panic branch is dead).  Returns the
actions and the next publish index. -/
def endSessionTrace (pub : Nat → Bool) (i : Nat) : List Action × Nat :=
  ([Action.published "quiz-end" (.text "thank you for playing") (pub i),
    Action.endRequest], i + 1)

/-- The question loop of `startQuiz` (`session.go` 204-220): while the
cursor is within bounds, `publishQuestion` (reset every answered-flag,
publish the prompt and options), abort through `endSession` when the
publish fails, otherwise wait out the question window and advance the
cursor.  Structural recursion on fuel; the caller passes
`questions.length - currentQuestion`, the exact number of remaining
iterations, and the bounds check of the source heads both branches. -/
def quizLoopFuel (pub : Nat → Bool) : Nat → Session → Nat → List Action × Session × Nat
  | 0, s, i => ([], s, i)
  | fuel + 1, s, i =>
      if h : s.questions.length ≤ s.currentQuestion then ([], s, i)
      else
        let s1 := s.resetVotes
        let q := s.questions.get ⟨s.currentQuestion, by omega⟩
        if pub i then
          let next := quizLoopFuel pub fuel { s1 with currentQuestion := s1.currentQuestion + 1 } (i + 1)
          (Action.published "new_question" (.questionP (questionPayload q)) true :: next.1,
           next.2)
        else
          (Action.published "new_question" (.questionP (questionPayload q)) false ::
             (endSessionTrace pub (i + 1)).1,
           s1, (endSessionTrace pub (i + 1)).2)

/-- The question loop, entered with exactly as much fuel as there are
questions left. -/
def quizLoop (s : Session) (pub : Nat → Bool) (i : Nat) : List Action × Session × Nat :=
  quizLoopFuel pub (s.questions.length - s.currentQuestion) s i

/-- `startQuiz` (`session.go` 182-223) as a trace.  `moveOk` is the
registry response to the `MoveSessionToInProgress` request.  When the
"starting soon" publish fails the source calls `endSession` but then
falls through into the question loop (there is no `return` in that
branch, unlike the move-failure and question-publish-failure branches);
the embedding reproduces that fall-through. -/
def startQuizTrace (s : Session) (moveOk : Bool) (pub : Nat → Bool) : List Action :=
  if moveOk then
    let startedOk := pub 0
    let head := [Action.moveRequest true,
                 Action.published "quiz-update" (.text "Quiz starting in 3 seconds") startedOk]
    let mid := if startedOk then (([] : List Action), 1)
               else ((endSessionTrace pub 1).1, (endSessionTrace pub 1).2)
    let lp := quizLoop s pub mid.2
    let sb := Action.published "quiz-update" (.scoreboard (scoreBoardOf lp.2.1)) (pub lp.2.2)
    head ++ mid.1 ++ lp.1 ++ sb :: (endSessionTrace pub (lp.2.2 + 1)).1
  else
    Action.moveRequest false :: (endSessionTrace pub 0).1

/-- True exactly on a successfully published `new_question` action. -/
def isNewQuestion : Action → Bool
  | .published "new_question" _ true => true
  | _ => false

/-! ## Interleaving of the progression task with registry commands

For the in-bounds claim about `SubmitAnswer` the progression task and
the registry must be allowed to interleave.  One session is modelled:
its partition (the registry side), its state, and the control point of
its progression goroutine.  Each transition is one atomic section of
the source: one lock-protected session access or one registry command;
publishes are taken as succeeding (each constructor is one behaviour
the real system has, which is all a reachability argument needs). -/

/-- Which partition of the registry holds the session. -/
inductive Phase where
  | waiting
  | inProgress
  | removed
deriving DecidableEq

/-- The control point of the session progression goroutine
(`startQuiz`): about to send the move request; at the loop head about
to compare the cursor with the question count; inside a question
window after `publishQuestion` and before the cursor advance; after
the loop, publishing the scoreboard and the end notice before sending
`EndSession`; finished. -/
inductive LoopPC where
  | start
  | loopHead
  | window
  | finishing
  | done
deriving DecidableEq

/-- One session together with its registry phase and its goroutine
control point. -/
structure Sys where
  phase : Phase
  sess : Session
  pc : LoopPC
deriving DecidableEq

/-- The atomic transitions of the combined system.  `move`: the
registry processes `MoveSessionToInProgress` for a waiting session and
the goroutine publishes the starting notice.  `publishQ`: the loop
head sees the cursor in bounds and `publishQuestion` resets the
answered-flags and publishes.  `advance`: `moveToNextQuestion` after
the question window.  `exitLoop`: the loop head sees the cursor out of
bounds and falls to the teardown publishes.  `endCmd`: the registry
processes the `EndSession` request, removing the session.  `submitCmd`:
the registry routes a `SubmitAnswer` command to the session while it
is in the in-progress partition (only non-panicking calls step). -/
inductive Step : Sys → Sys → Prop
  | move (s : Session) :
      Step ⟨.waiting, s, .start⟩ ⟨.inProgress, s, .loopHead⟩
  | publishQ (ph : Phase) (s : Session) (h : s.currentQuestion < s.questions.length) :
      Step ⟨ph, s, .loopHead⟩ ⟨ph, s.resetVotes, .window⟩
  | advance (ph : Phase) (s : Session) :
      Step ⟨ph, s, .window⟩ ⟨ph, { s with currentQuestion := s.currentQuestion + 1 }, .loopHead⟩
  | exitLoop (ph : Phase) (s : Session) (h : s.questions.length ≤ s.currentQuestion) :
      Step ⟨ph, s, .loopHead⟩ ⟨ph, s, .finishing⟩
  | endCmd (s : Session) :
      Step ⟨.inProgress, s, .finishing⟩ ⟨.removed, s, .done⟩
  | submitCmd (s : Session) (pc : LoopPC) (pid : String) (a : Int)
      (h : (s.submitAnswer pid a).1 ≠ .crash) :
      Step ⟨.inProgress, s, pc⟩ ⟨.inProgress, (s.submitAnswer pid a).2, pc⟩

/-- Reachability along `Step`. -/
inductive SysReach : Sys → Sys → Prop
  | refl (a : Sys) : SysReach a a
  | tail {a b c : Sys} : SysReach a b → Step b c → SysReach a c

/-! ## Command runs for the registry invariant -/

/-- A command is good when it is not an `EndSession` for a session id
absent from the in-progress partition (the source decrements
`activeCount` for such ids anyway, which is the violation the
invariant claim is corrected for). -/
def goodCmd (m : Manager) : Command → Bool
  | .endSession sid => (mapLookup m.inProgress sid).isSome
  | _ => true

/-- A completed run of registry commands in which every `EndSession`
names a session currently in progress. -/
inductive GoodRun : Manager → List Command → Manager → Prop
  | nil (m : Manager) : GoodRun m [] m
  | cons {m m1 m2 : Manager} {c : Command} {cs : List Command} {r : Resp} {t : Option Nat}
      (hok : m.handleCommand c = some (r, m1, t))
      (hgood : goodCmd m c = true)
      (htail : GoodRun m1 cs m2) : GoodRun m (c :: cs) m2

/-- The inductive registry invariant: both partitions have duplicate-free
key sets, the partitions are disjoint, every stored id is older than the
freshness counter, and the active count equals the total number of
stored sessions. -/
structure Inv (m : Manager) : Prop where
  nodupW : (mapKeys m.waitingRooms).Nodup
  nodupP : (mapKeys m.inProgress).Nodup
  disj : ∀ k ∈ mapKeys m.waitingRooms, k ∉ mapKeys m.inProgress
  freshW : ∀ k ∈ mapKeys m.waitingRooms, k < m.nextId
  freshP : ∀ k ∈ mapKeys m.inProgress, k < m.nextId
  count : m.activeCount = (m.waitingRooms.length : Int) + (m.inProgress.length : Int)

/-! ## Characterisation of join sequences -/

/-- The player record `AddPlayer` stores: submitted name and id, score
zero, answered-flag clear. -/
def freshPlayer (p : Player) : Player :=
  { name := p.name, id := p.id, score := 0, hasVoted := false }

/-- The player map after adding a list of distinct players in order. -/
def mkPlayers (ps : List Player) : List (String × Player) :=
  ps.map fun p => (p.id, freshPlayer p)

/-- The single session a run of joins builds (identifier 0, the first
fresh id). -/
def sessionWith (nP : Int) (qs : List Question) (ps : List Player) : Session :=
  { id := 0, maxPlayersPerSession := nP, questions := qs,
    players := mkPlayers ps, currentQuestion := 0 }

/-- Registry state while the first session is still waiting. -/
def midManager (nS nP : Int) (qs : List Question) (ps : List Player) : Manager :=
  { waitingRooms := [(0, sessionWith nP qs ps)], inProgress := [],
    maxPlayersPerSession := nP, activeCount := 1, maxSessions := nS,
    questions := qs, nextId := 1 }

/-- Registry state after the first session moved to in progress. -/
def doneManager (nS nP : Int) (qs : List Question) (ps : List Player) : Manager :=
  { waitingRooms := [], inProgress := [(0, sessionWith nP qs ps)],
    maxPlayersPerSession := nP, activeCount := 1, maxSessions := nS,
    questions := qs, nextId := 1 }

/-! ## Concrete instances used by witnesses and counterexamples -/

/-- A question bank entry. -/
def demoQ : Question :=
  { question := "2+2", possibleAnswers := ["3", "4"], correctAnswer := 1 }

/-- A player who has not answered the current question. -/
def demoAlice : Player := { name := "Alice", id := "p1", score := 0, hasVoted := false }

/-- A player whose answered-flag is set. -/
def demoBob : Player := { name := "Bob", id := "p2", score := 0, hasVoted := true }

/-- A second joining player. -/
def demoCarol : Player := { name := "Carol", id := "p3", score := 0, hasVoted := false }

/-- Player p1 rejoining under a different display name with stale
score and flag fields in the request. -/
def demoAlicia : Player := { name := "Alicia", id := "p1", score := 5, hasVoted := true }

/-- A below-capacity session holding both demo players. -/
def demoSession : Session :=
  { id := 0, maxPlayersPerSession := 3, questions := [demoQ],
    players := [("p1", demoAlice), ("p2", demoBob)], currentQuestion := 0 }

/-- A full single-player session about to start its quiz. -/
def demoSoloSession : Session :=
  { id := 0, maxPlayersPerSession := 1, questions := [demoQ],
    players := [("p1", demoAlice)], currentQuestion := 0 }

/-- A publish oracle failing exactly the first publish call. -/
def demoPub (i : Nat) : Bool := decide (i ≠ 0)

/-- The combined system at the instant the session filled: still in the
waiting partition, progression goroutine about to send the move. -/
def demoSys0 : Sys := ⟨.waiting, demoSoloSession, .start⟩

/-- The combined system after the loop advanced past the only question
but before the registry processed `EndSession`: still in progress,
cursor equal to the question count. -/
def demoSysBad : Sys :=
  ⟨.inProgress,
   { demoSoloSession.resetVotes with
       currentQuestion := demoSoloSession.resetVotes.currentQuestion + 1 },
   .loopHead⟩

/-- A registry at its session limit with no waiting session. -/
def demoFullManager : Manager :=
  { waitingRooms := [], inProgress := [(0, demoSoloSession)],
    maxPlayersPerSession := 1, activeCount := 1, maxSessions := 1,
    questions := [demoQ], nextId := 1 }

/-- The registry state after an `EndSession` for an id that was never
created: the active count has gone negative. -/
def demoNegManager : Manager :=
  { waitingRooms := [], inProgress := [], maxPlayersPerSession := 2,
    activeCount := -1, maxSessions := 2, questions := [demoQ], nextId := 0 }

/-- The single-player session left waiting after the same player
joined twice with maxPlayers two. -/
def demoDupSession : Session :=
  { id := 0, maxPlayersPerSession := 2, questions := [demoQ],
    players := [("p1", demoAlice)], currentQuestion := 0 }

/-- The session created by the witness run of good commands. -/
def demoJoinedSession : Session :=
  { id := 0, maxPlayersPerSession := 1, questions := [demoQ],
    players := [("p1", demoAlice)], currentQuestion := 0 }

/-- Registry after the witness join filled the session. -/
def demoJoinedManager : Manager :=
  { waitingRooms := [(0, demoJoinedSession)], inProgress := [],
    maxPlayersPerSession := 1, activeCount := 1, maxSessions := 1,
    questions := [demoQ], nextId := 1 }

/-- Registry after the witness partition move. -/
def demoMovedManager : Manager :=
  { waitingRooms := [], inProgress := [(0, demoJoinedSession)],
    maxPlayersPerSession := 1, activeCount := 1, maxSessions := 1,
    questions := [demoQ], nextId := 1 }

/-- Registry after the witness session ended. -/
def demoEndedManager : Manager :=
  { waitingRooms := [], inProgress := [],
    maxPlayersPerSession := 1, activeCount := 0, maxSessions := 1,
    questions := [demoQ], nextId := 1 }

/-- The registry state after the same player joined twice with
maxPlayers two: one waiting session with a single player, no session
in progress. -/
def demoDupManager : Manager :=
  { waitingRooms := [(0, demoDupSession)],
    inProgress := [], maxPlayersPerSession := 2, activeCount := 1,
    maxSessions := 1, questions := [demoQ], nextId := 1 }

/-! ## Lemmas about the embedded Go maps -/

theorem mapLookup_insert_self {K α : Type} [DecidableEq K] :
    ∀ (l : List (K × α)) (k : K) (v : α), mapLookup (mapInsert l k v) k = some v
  | [], k, v => by simp [mapInsert, mapLookup]
  | (k', v') :: rest, k, v => by
      by_cases h : k' = k
      · simp [mapInsert, mapLookup, h]
      · simp [mapInsert, mapLookup, h, mapLookup_insert_self rest k v]

theorem mapLookup_insert_ne {K α : Type} [DecidableEq K] :
    ∀ (l : List (K × α)) (k j : K) (v : α), j ≠ k →
      mapLookup (mapInsert l k v) j = mapLookup l j
  | [], k, j, v, hne => by simp [mapInsert, mapLookup, Ne.symm hne]
  | (k', v') :: rest, k, j, v, hne => by
      by_cases h : k' = k
      · subst h
        simp [mapInsert, mapLookup, Ne.symm hne]
      · by_cases hj : k' = j
        · simp [mapInsert, mapLookup, h, hj, hne]
        · simp [mapInsert, mapLookup, h, hj, mapLookup_insert_ne rest k j v hne]

theorem mapInsert_eq_append {K α : Type} [DecidableEq K] :
    ∀ (l : List (K × α)) (k : K) (v : α), mapLookup l k = none →
      mapInsert l k v = l ++ [(k, v)]
  | [], k, v, _ => by simp [mapInsert]
  | (k', v') :: rest, k, v, h => by
      by_cases hk : k' = k
      · simp [mapLookup, hk] at h
      · simp only [mapLookup, if_neg hk] at h
        simp [mapInsert, hk, mapInsert_eq_append rest k v h]

theorem length_mapInsert_mem {K α : Type} [DecidableEq K] :
    ∀ (l : List (K × α)) (k : K) (v w : α), mapLookup l k = some w →
      (mapInsert l k v).length = l.length
  | [], k, v, w, h => by simp [mapLookup] at h
  | (k', v') :: rest, k, v, w, h => by
      by_cases hk : k' = k
      · simp [mapInsert, hk]
      · simp only [mapLookup, if_neg hk] at h
        simp [mapInsert, hk, length_mapInsert_mem rest k v w h]

theorem mapKeys_insert_mem {K α : Type} [DecidableEq K] :
    ∀ (l : List (K × α)) (k : K) (v w : α), mapLookup l k = some w →
      mapKeys (mapInsert l k v) = mapKeys l
  | [], k, v, w, h => by simp [mapLookup] at h
  | (k', v') :: rest, k, v, w, h => by
      by_cases hk : k' = k
      · simp [mapInsert, hk, mapKeys]
      · simp only [mapLookup, if_neg hk] at h
        have ih : List.map Prod.fst (mapInsert rest k v) = List.map Prod.fst rest :=
          mapKeys_insert_mem rest k v w h
        simp only [mapInsert, if_neg hk, mapKeys, List.map_cons, ih]

theorem mapLookup_eq_none_iff {K α : Type} [DecidableEq K] :
    ∀ (l : List (K × α)) (k : K), mapLookup l k = none ↔ k ∉ mapKeys l
  | [], k => by simp [mapLookup, mapKeys]
  | (k', v') :: rest, k => by
      by_cases hk : k' = k
      · simp [mapLookup, hk, mapKeys]
      · simp [mapLookup, hk, mapKeys, mapLookup_eq_none_iff rest k, Ne.symm hk]

theorem mapLookup_some_mem {K α : Type} [DecidableEq K]
    (l : List (K × α)) (k : K) (v : α) (h : mapLookup l k = some v) :
    k ∈ mapKeys l := by
  by_contra hmem
  rw [← mapLookup_eq_none_iff l k] at hmem
  rw [hmem] at h
  cases h

theorem mapErase_not_mem {K α : Type} [DecidableEq K] :
    ∀ (l : List (K × α)) (k : K), mapLookup l k = none → mapErase l k = l
  | [], k, _ => rfl
  | (k', v') :: rest, k, h => by
      by_cases hk : k' = k
      · simp [mapLookup, hk] at h
      · simp only [mapLookup, if_neg hk] at h
        simp [mapErase, hk, mapErase_not_mem rest k h]

theorem length_mapErase_mem {K α : Type} [DecidableEq K] :
    ∀ (l : List (K × α)) (k : K) (w : α), mapLookup l k = some w →
      (mapErase l k).length + 1 = l.length
  | [], k, w, h => by simp [mapLookup] at h
  | (k', v') :: rest, k, w, h => by
      by_cases hk : k' = k
      · simp [mapErase, hk]
      · simp only [mapLookup, if_neg hk] at h
        simp [mapErase, hk, length_mapErase_mem rest k w h]

theorem mem_keys_mapErase {K α : Type} [DecidableEq K] :
    ∀ (l : List (K × α)) (k j : K), j ∈ mapKeys (mapErase l k) → j ∈ mapKeys l
  | [], k, j, h => h
  | (k', v') :: rest, k, j, h => by
      by_cases hk : k' = k
      · simp only [mapErase, if_pos hk] at h
        simp only [mapKeys, List.map_cons, List.mem_cons]
        exact Or.inr h
      · simp only [mapErase, if_neg hk, mapKeys, List.map_cons, List.mem_cons] at h ⊢
        rcases h with h | h
        · exact Or.inl h
        · exact Or.inr (mem_keys_mapErase rest k j h)

theorem nodup_keys_mapErase {K α : Type} [DecidableEq K] :
    ∀ (l : List (K × α)) (k : K), (mapKeys l).Nodup → (mapKeys (mapErase l k)).Nodup
  | [], k, h => h
  | (k', v') :: rest, k, h => by
      simp only [mapKeys, List.map_cons, List.nodup_cons] at h
      by_cases hk : k' = k
      · simpa [mapErase, hk, mapKeys] using h.2
      · simp only [mapErase, if_neg hk, mapKeys, List.map_cons, List.nodup_cons]
        exact ⟨fun hmem => h.1 (mem_keys_mapErase rest k k' hmem),
               nodup_keys_mapErase rest k h.2⟩

theorem nodup_keys_mapInsert_new {K α : Type} [DecidableEq K]
    (l : List (K × α)) (k : K) (v : α) (hnd : (mapKeys l).Nodup)
    (h : mapLookup l k = none) : (mapKeys (mapInsert l k v)).Nodup := by
  rw [mapInsert_eq_append l k v h]
  simp only [mapKeys, List.map_append, List.map_cons, List.map_nil]
  rw [List.nodup_append]
  refine ⟨hnd, List.nodup_singleton k, ?_⟩
  intro j hj hk
  simp only [List.mem_singleton] at hk
  subst hk
  exact (mapLookup_eq_none_iff l j).mp h hj

theorem mem_keys_mapErase_ne {K α : Type} [DecidableEq K] :
    ∀ (l : List (K × α)) (k j : K), (mapKeys l).Nodup →
      j ∈ mapKeys (mapErase l k) → j ≠ k
  | [], k, j, _, h => by cases h
  | (k', v') :: rest, k, j, hnd, h => by
      simp only [mapKeys, List.map_cons, List.nodup_cons] at hnd
      by_cases hk : k' = k
      · subst hk
        simp only [mapErase, if_pos rfl] at h
        intro hjk
        subst hjk
        exact hnd.1 h
      · simp only [mapErase, if_neg hk, mapKeys, List.map_cons, List.mem_cons] at h
        rcases h with h | h
        · subst h
          exact fun hjk => hk hjk
        · exact mem_keys_mapErase_ne rest k j hnd.2 h

/-! ## C1: score correctness of SubmitAnswer -/

/-- C1.  For an in-progress session, a known player whose
answered-flag is clear and any submitted index: `SubmitAnswer`
succeeds, stores a player record whose score grew by exactly 1 when
the index equals the correct-answer index of the question at the
current cursor and is unchanged otherwise (any out-of-range index
falls under "otherwise", as it cannot equal a stored correct index),
and unconditionally sets the answered-flag. -/
theorem submitAnswer_score_correct (s : Session) (pid : String) (a : Int)
    (p : Player) (q : Question)
    (hp : mapLookup s.players pid = some p) (hv : p.hasVoted = false)
    (hq : s.getCurrentQuestion? = some q) :
    ∃ p', s.submitAnswer pid a =
        (.ok, { s with players := mapInsert s.players pid p' }) ∧
      p'.hasVoted = true ∧ p'.name = p.name ∧ p'.id = p.id ∧
      (a = q.correctAnswer → p'.score = p.score + 1) ∧
      (a ≠ q.correctAnswer → p'.score = p.score) ∧
      mapLookup (s.submitAnswer pid a).2.players pid = some p' := by
  by_cases hqa : a = q.correctAnswer
  · refine ⟨{ p with score := p.score + 1, hasVoted := true }, ?_, rfl, rfl, rfl,
      fun _ => rfl, fun hne => absurd hqa hne, ?_⟩
    · simp [Session.submitAnswer, hp, hv, hq, hqa]
    · simp [Session.submitAnswer, hp, hv, hq, hqa, mapLookup_insert_self]
  · refine ⟨{ p with hasVoted := true }, ?_, rfl, rfl, rfl,
      fun heq => absurd heq hqa, fun _ => rfl, ?_⟩
    · simp [Session.submitAnswer, hp, hv, hq, hqa]
    · simp [Session.submitAnswer, hp, hv, hq, hqa, mapLookup_insert_self]

/-- C1 witness: the demo session, player p1 (flag clear), submitting
the correct index 1 for the demo question. -/
theorem submitAnswer_score_correct_witness :
    mapLookup demoSession.players "p1" = some demoAlice ∧
    demoAlice.hasVoted = false ∧
    demoSession.getCurrentQuestion? = some demoQ ∧
    ∃ p', demoSession.submitAnswer "p1" 1 =
        (.ok, { demoSession with players := mapInsert demoSession.players "p1" p' }) ∧
      p'.hasVoted = true ∧ p'.name = demoAlice.name ∧ p'.id = demoAlice.id ∧
      ((1 : Int) = demoQ.correctAnswer → p'.score = demoAlice.score + 1) ∧
      ((1 : Int) ≠ demoQ.correctAnswer → p'.score = demoAlice.score) ∧
      mapLookup (demoSession.submitAnswer "p1" 1).2.players "p1" = some p' :=
  ⟨by decide, rfl, by decide,
   submitAnswer_score_correct demoSession "p1" 1 demoAlice demoQ (by decide) rfl (by decide)⟩

/-! ## C2: repeated submission is rejected -/

/-- C2.  A second submission by a player whose answered-flag is set
fails with the already-voted error and leaves the whole session state
unchanged. -/
theorem submitAnswer_already_voted (s : Session) (pid : String) (a : Int)
    (p : Player) (hp : mapLookup s.players pid = some p) (hv : p.hasVoted = true) :
    s.submitAnswer pid a = (.err "player has already voted", s) := by
  simp [Session.submitAnswer, hp, hv]

/-- C2 witness: player p2 of the demo session already voted. -/
theorem submitAnswer_already_voted_witness :
    mapLookup demoSession.players "p2" = some demoBob ∧
    demoBob.hasVoted = true ∧
    demoSession.submitAnswer "p2" 1 = (.err "player has already voted", demoSession) :=
  ⟨by decide, rfl, submitAnswer_already_voted demoSession "p2" 1 demoBob (by decide) rfl⟩

/-! ## C8: the broadcast question payload withholds the correct index -/

/-- C8.  The `new_question` payload built by `publishQuestion` holds
only the prompt and the ordered option texts: two questions that agree
on those and differ only in their correct-answer index produce
identical payloads. -/
theorem questionPayload_ignores_correct (q1 q2 : Question)
    (hq : q1.question = q2.question)
    (ha : q1.possibleAnswers = q2.possibleAnswers) :
    questionPayload q1 = questionPayload q2 := by
  simp [questionPayload, hq, ha]

/-- C8 witness: the demo question against a copy whose correct index
differs. -/
theorem questionPayload_ignores_correct_witness :
    demoQ.question = (Question.mk "2+2" ["3", "4"] 0).question ∧
    demoQ.possibleAnswers = (Question.mk "2+2" ["3", "4"] 0).possibleAnswers ∧
    questionPayload demoQ = questionPayload (Question.mk "2+2" ["3", "4"] 0) :=
  ⟨rfl, rfl, questionPayload_ignores_correct demoQ (Question.mk "2+2" ["3", "4"] 0) rfl rfl⟩

/-! ## C9: re-adding a present player overwrites without filling -/

/-- C9.  `AddPlayer` with a player id already present in a
below-capacity session succeeds, overwrites the stored entry with the
new display name and a zero score, keeps the player count unchanged,
and does not launch the quiz (the waiting-to-in-progress trigger). -/
theorem addPlayer_overwrites (s : Session) (p pOld : Player)
    (hp : mapLookup s.players p.id = some pOld)
    (hc : (s.players.length : Int) < s.maxPlayersPerSession) :
    s.addPlayer p = .ok ({ s with players := mapInsert s.players p.id (freshPlayer p) }, false) ∧
    (mapInsert s.players p.id (freshPlayer p)).length = s.players.length ∧
    mapLookup (mapInsert s.players p.id (freshPlayer p)) p.id = some (freshPlayer p) := by
  have hlen := length_mapInsert_mem s.players p.id (freshPlayer p) pOld hp
  have hne : ¬ ((mapInsert s.players p.id (freshPlayer p)).length : Int) =
      s.maxPlayersPerSession := by
    rw [hlen]
    omega
  have hne2 : ¬ ((mapInsert s.players p.id
      { name := p.name, id := p.id, score := 0, hasVoted := false }).length : Int) =
      s.maxPlayersPerSession := hne
  refine ⟨?_, hlen, mapLookup_insert_self s.players p.id (freshPlayer p)⟩
  simp only [Session.addPlayer, if_pos hc]
  rw [decide_eq_false hne2]
  rfl

/-- C9 witness: re-adding player p1 under a changed name to the
(capacity three, two player) demo session. -/
theorem addPlayer_overwrites_witness :
    mapLookup demoSession.players demoAlicia.id = some demoAlice ∧
    (demoSession.players.length : Int) < demoSession.maxPlayersPerSession ∧
    (demoSession.addPlayer demoAlicia =
       .ok ({ demoSession with
              players := mapInsert demoSession.players demoAlicia.id (freshPlayer demoAlicia) },
            false) ∧
     (mapInsert demoSession.players demoAlicia.id (freshPlayer demoAlicia)).length =
       demoSession.players.length ∧
     mapLookup (mapInsert demoSession.players demoAlicia.id (freshPlayer demoAlicia))
        demoAlicia.id = some (freshPlayer demoAlicia)) :=
  ⟨by decide, by decide,
   addPlayer_overwrites demoSession demoAlicia demoAlice (by decide) (by decide)⟩

/-! ## C7: SubmitAnswer against a session id not in progress -/

/-- C7.  A `SubmitAnswer` command whose session id is not in the
in-progress partition (ended, still waiting, or never created) gets
the session-not-found error and leaves the whole registry state,
including every stored session and score, unchanged. -/
theorem submit_not_in_progress (m : Manager) (sid : Nat) (pid : String) (a : Int)
    (h : mapLookup m.inProgress sid = none) :
    m.handleCommand (.submitAnswer pid a sid) =
      some ({ error := some "session not found", sessionId := none }, m, none) := by
  simp [Manager.handleCommand, h]

/-- C7 witness: a registry whose only session is still waiting, so its
id is not in the in-progress partition. -/
theorem submit_not_in_progress_witness :
    mapLookup demoDupManager.inProgress 0 = none ∧
    demoDupManager.handleCommand (.submitAnswer "p1" 1 0) =
      some ({ error := some "session not found", sessionId := none }, demoDupManager, none) :=
  ⟨rfl, submit_not_in_progress demoDupManager 0 "p1" 1 rfl⟩

/-! ## C6: registry capacity and the room freed by EndSession -/

/-- C6.  With no waiting session and the active count at the session
limit, a join fails with the capacity error and changes nothing; an
`EndSession` command then decrements the active count, after which a
join creates a session again (the response carries the fresh id, the
new session is stored in the waiting partition, and the active count
is back at the limit). -/
theorem capacity_exceeded_then_freed (m : Manager) (p : Player) (sid : Nat)
    (hw : m.waitingRooms = []) (hc : m.activeCount = m.maxSessions) :
    m.handleCommand (.joinSession p) =
      some ({ error := some "max sessions reached, could not create a session to join",
              sessionId := none }, m, none) ∧
    ∃ m2, m.handleCommand (.endSession sid) =
        some ({ error := none, sessionId := none }, m2, none) ∧
      m2.activeCount = m.activeCount - 1 ∧
      ∃ r m3 t, m2.handleCommand (.joinSession p) = some (r, m3, t) ∧
        r.sessionId = some m.nextId ∧
        (mapLookup m3.waitingRooms m.nextId).isSome = true ∧
        m3.activeCount = m.maxSessions := by
  obtain ⟨W, P, nP, ac, nS, qs, nid⟩ := m
  obtain rfl : W = [] := hw
  obtain rfl : ac = nS := hc
  constructor
  · simp [Manager.handleCommand, Manager.createSession]
  · refine ⟨_, rfl, rfl, ?_⟩
    have hlt : ¬ ac ≤ ac - 1 := by omega
    by_cases hp : (0 : Int) < nP
    · simp only [Manager.handleCommand, Manager.createSession, Session.addPlayer,
            mapInsert, mapLookup, hlt, hp]
      simp [mapInsert, mapLookup, hlt, hp]
      exact ⟨_, _, ⟨rfl, rfl⟩, rfl, by simp [mapLookup], rfl⟩
    · simp [Manager.handleCommand, Manager.createSession, Session.addPlayer,
            mapInsert, mapLookup, hlt, hp]
      exact ⟨_, _, ⟨rfl, rfl⟩, rfl, by simp [mapLookup], rfl⟩

/-- C6 witness: a one-session registry at its limit with its only
session in progress. -/
theorem capacity_exceeded_then_freed_witness :
    demoFullManager.waitingRooms = [] ∧
    demoFullManager.activeCount = demoFullManager.maxSessions ∧
    (demoFullManager.handleCommand (.joinSession demoCarol) =
      some ({ error := some "max sessions reached, could not create a session to join",
              sessionId := none }, demoFullManager, none) ∧
    ∃ m2, demoFullManager.handleCommand (.endSession 0) =
        some ({ error := none, sessionId := none }, m2, none) ∧
      m2.activeCount = demoFullManager.activeCount - 1 ∧
      ∃ r m3 t, m2.handleCommand (.joinSession demoCarol) = some (r, m3, t) ∧
        r.sessionId = some demoFullManager.nextId ∧
        (mapLookup m3.waitingRooms demoFullManager.nextId).isSome = true ∧
        m3.activeCount = demoFullManager.maxSessions) :=
  ⟨rfl, rfl, capacity_exceeded_then_freed demoFullManager demoCarol 0 rfl rfl⟩

/-! ## C3: the progression task does not abort after a failed
starting-soon publish -/

/-- C3 evaluated on the failing input.  The demo session's progression
task, with the partition move succeeding and the publish oracle
failing exactly the first publish (the "starting soon" notice),
produces a trace that publishes the end-of-quiz notice and requests
removal, but then still publishes a `new_question` event (and a second
end-of-quiz notice and removal request): `startQuiz` calls
`endSession` on this failure but is missing the `return` its two
sibling failure branches have, so it falls through into the question
loop. -/
theorem startQuiz_publishes_after_failed_start :
    startQuizTrace demoSoloSession true demoPub =
      [Action.moveRequest true,
       Action.published "quiz-update" (.text "Quiz starting in 3 seconds") false,
       Action.published "quiz-end" (.text "thank you for playing") true,
       Action.endRequest,
       Action.published "new_question" (.questionP (questionPayload demoQ)) true,
       Action.published "quiz-update" (.scoreboard [("Alice", 0)]) true,
       Action.published "quiz-end" (.text "thank you for playing") true,
       Action.endRequest] ∧
    ((startQuizTrace demoSoloSession true demoPub).drop 2).any isNewQuestion = true := by
  constructor
  · rfl
  · rfl

/-! ## C10: a SubmitAnswer routed after the cursor passed the last
question reads out of bounds -/

/-- C10 refuted.  A state is reachable in which the session is still
in the in-progress partition, player p1 is known with a clear
answered-flag, yet the cursor is not strictly below the question
count; `SubmitAnswer` there reaches the question read and panics
(index out of range): after the progression loop advances past the
last question, the session stays in progress until the registry
processes its `EndSession`, and a submission in that window faults. -/
theorem submitAnswer_out_of_bounds_reachable :
    SysReach demoSys0 demoSysBad ∧
    demoSysBad.phase = .inProgress ∧
    mapLookup demoSysBad.sess.players "p1" = some demoAlice ∧
    demoAlice.hasVoted = false ∧
    ¬ demoSysBad.sess.currentQuestion < demoSysBad.sess.questions.length ∧
    (demoSysBad.sess.submitAnswer "p1" 0).1 = .crash := by
  refine ⟨?_, rfl, by decide, rfl, by decide, by decide⟩
  have h1 : Step demoSys0 ⟨.inProgress, demoSoloSession, .loopHead⟩ :=
    Step.move demoSoloSession
  have h2 : Step ⟨.inProgress, demoSoloSession, .loopHead⟩
      ⟨.inProgress, demoSoloSession.resetVotes, .window⟩ :=
    Step.publishQ .inProgress demoSoloSession (by decide)
  have h3 : Step ⟨.inProgress, demoSoloSession.resetVotes, .window⟩ demoSysBad :=
    Step.advance .inProgress demoSoloSession.resetVotes
  exact SysReach.tail (SysReach.tail (SysReach.tail (SysReach.refl demoSys0) h1) h2) h3

/-! ## C4: the registry partition/count invariant -/

/-- C4 counterexample.  An `EndSession` command for an id that is not
in the in-progress partition completes (the source only logs "cannot
end session" and proceeds), after which the active count is -1 while
both partitions are empty: the claimed equality fails. -/
theorem registry_count_invariant_fails :
    runCommands (initialManager 2 2 [demoQ]) [Command.endSession 0] = some demoNegManager ∧
    demoNegManager.activeCount ≠
      (demoNegManager.waitingRooms.length : Int) + (demoNegManager.inProgress.length : Int) := by
  constructor
  · rfl
  · decide

/-- Every registry command preserves the strengthened invariant,
provided an `EndSession` only names an id currently in progress. -/
theorem inv_handleCommand (m m1 : Manager) (c : Command) (r : Resp) (t : Option Nat)
    (hinv : Inv m) (hok : m.handleCommand c = some (r, m1, t))
    (hgood : goodCmd m c = true) : Inv m1 := by
  obtain ⟨hndW, hndP, hdisj, hfW, hfP, hcount⟩ := hinv
  obtain ⟨W, P, nP, ac, nS, qs, nid⟩ := m
  simp only at hndW hndP hdisj hfW hfP hcount
  cases c with
  | endSession sid =>
      simp only [goodCmd, Option.isSome_iff_exists] at hgood
      obtain ⟨sess, hsess⟩ := hgood
      simp only [Manager.handleCommand, Option.some.injEq, Prod.mk.injEq] at hok
      obtain ⟨-, hm1, -⟩ := hok
      subst hm1
      have hlen := length_mapErase_mem P sid sess hsess
      refine ⟨hndW, nodup_keys_mapErase P sid hndP, ?_, hfW, ?_, ?_⟩
      · intro k hkW hkP
        exact hdisj k hkW (mem_keys_mapErase P sid k hkP)
      · intro k hk
        exact hfP k (mem_keys_mapErase P sid k hk)
      · simp only
        omega
  | moveToInProgress sid =>
      simp only [Manager.handleCommand] at hok
      cases hW : mapLookup W sid with
      | none =>
          rw [hW] at hok
          simp only [Option.some.injEq, Prod.mk.injEq] at hok
          obtain ⟨-, hm1, -⟩ := hok
          subst hm1
          exact ⟨hndW, hndP, hdisj, hfW, hfP, hcount⟩
      | some sess =>
          rw [hW] at hok
          simp only [Option.some.injEq, Prod.mk.injEq] at hok
          obtain ⟨-, hm1, -⟩ := hok
          subst hm1
          have hmemW : sid ∈ mapKeys W := mapLookup_some_mem W sid sess hW
          have hsidP : sid ∉ mapKeys P := hdisj sid hmemW
          have hlookP : mapLookup P sid = none := (mapLookup_eq_none_iff P sid).mpr hsidP
          have happ := mapInsert_eq_append P sid sess hlookP
          have hkeysP : mapKeys (mapInsert P sid sess) = mapKeys P ++ [sid] := by
            rw [happ]
            simp [mapKeys]
          have hlenP : (mapInsert P sid sess).length = P.length + 1 := by
            rw [happ]
            simp
          have hlenW := length_mapErase_mem W sid sess hW
          refine ⟨nodup_keys_mapErase W sid hndW,
              nodup_keys_mapInsert_new P sid sess hndP hlookP, ?_, ?_, ?_, ?_⟩
          · intro k hkW hkP
            have hk1 : k ∈ mapKeys W := mem_keys_mapErase W sid k hkW
            have hk2 : k ≠ sid := mem_keys_mapErase_ne W sid k hndW hkW
            rw [hkeysP] at hkP
            rcases List.mem_append.mp hkP with h | h
            · exact hdisj k hk1 h
            · exact hk2 (List.mem_singleton.mp h)
          · intro k hk
            exact hfW k (mem_keys_mapErase W sid k hk)
          · intro k hk
            rw [hkeysP] at hk
            rcases List.mem_append.mp hk with h | h
            · exact hfP k h
            · rw [List.mem_singleton.mp h]
              exact hfW sid hmemW
          · simp only
            omega
  | submitAnswer pid answer sid =>
      simp only [Manager.handleCommand] at hok
      cases hP : mapLookup P sid with
      | none =>
          simp only [hP, Option.some.injEq, Prod.mk.injEq] at hok
          obtain ⟨-, hm1, -⟩ := hok
          subst hm1
          exact ⟨hndW, hndP, hdisj, hfW, hfP, hcount⟩
      | some sess =>
          simp only [hP] at hok
          rcases hsa : sess.submitAnswer pid answer with ⟨out, s'⟩
          rw [hsa] at hok
          cases out with
          | crash => simp at hok
          | err msg =>
              simp only [Option.some.injEq, Prod.mk.injEq] at hok
              obtain ⟨-, hm1, -⟩ := hok
              subst hm1
              have hkeys := mapKeys_insert_mem P sid s' sess hP
              have hlen := length_mapInsert_mem P sid s' sess hP
              refine ⟨hndW, ?_, ?_, hfW, ?_, ?_⟩
              · rw [show mapKeys (mapInsert P sid s') = mapKeys P from hkeys]
                exact hndP
              · intro k hkW hkP
                rw [show mapKeys (mapInsert P sid s') = mapKeys P from hkeys] at hkP
                exact hdisj k hkW hkP
              · intro k hk
                rw [show mapKeys (mapInsert P sid s') = mapKeys P from hkeys] at hk
                exact hfP k hk
              · simp only
                omega
          | ok =>
              simp only [Option.some.injEq, Prod.mk.injEq] at hok
              obtain ⟨-, hm1, -⟩ := hok
              subst hm1
              have hkeys := mapKeys_insert_mem P sid s' sess hP
              have hlen := length_mapInsert_mem P sid s' sess hP
              refine ⟨hndW, ?_, ?_, hfW, ?_, ?_⟩
              · rw [show mapKeys (mapInsert P sid s') = mapKeys P from hkeys]
                exact hndP
              · intro k hkW hkP
                rw [show mapKeys (mapInsert P sid s') = mapKeys P from hkeys] at hkP
                exact hdisj k hkW hkP
              · intro k hk
                rw [show mapKeys (mapInsert P sid s') = mapKeys P from hkeys] at hk
                exact hfP k hk
              · simp only
                omega
  | joinSession p =>
      cases W with
      | nil =>
          simp only [Manager.handleCommand] at hok
          by_cases hcap : nS ≤ ac
          · simp only [Manager.createSession, if_pos hcap, Option.some.injEq,
              Prod.mk.injEq] at hok
            obtain ⟨-, hm1, -⟩ := hok
            subst hm1
            exact ⟨hndW, hndP, hdisj, hfW, hfP, hcount⟩
          · have hnotP : nid ∉ mapKeys P := fun hmem => absurd (hfP nid hmem) (by omega)
            by_cases hp0 : (0 : Int) < nP
            all_goals
              simp [Manager.createSession, if_neg hcap, mapInsert, mapLookup,
                Session.addPlayer, hp0] at hok
            all_goals
              obtain ⟨-, hm1, -⟩ := hok
            all_goals
              subst hm1
            all_goals
              refine ⟨?_, hndP, ?_, ?_, ?_, ?_⟩
            case pos => simp [mapKeys]
            case pos =>
              intro k hkW hkP
              simp only [mapKeys, List.map_cons, List.map_nil,
                List.mem_singleton] at hkW
              subst hkW
              exact hnotP hkP
            case pos =>
              intro k hk
              simp only [mapKeys, List.map_cons, List.map_nil,
                List.mem_singleton] at hk
              subst hk
              exact Nat.lt_succ_self k
            case pos =>
              intro k hk
              exact Nat.lt_succ_of_lt (hfP k hk)
            case pos =>
              simp at hcount
              show ac + 1 = ((1 : Nat) : Int) + (P.length : Int)
              omega
            case neg => simp [mapKeys]
            case neg =>
              intro k hkW hkP
              simp only [mapKeys, List.map_cons, List.map_nil,
                List.mem_singleton] at hkW
              subst hkW
              exact hnotP hkP
            case neg =>
              intro k hk
              simp only [mapKeys, List.map_cons, List.map_nil,
                List.mem_singleton] at hk
              subst hk
              exact Nat.lt_succ_self k
            case neg =>
              intro k hk
              exact Nat.lt_succ_of_lt (hfP k hk)
            case neg =>
              simp at hcount
              show ac + 1 = ((1 : Nat) : Int) + (P.length : Int)
              omega
      | cons hd Wrest =>
          obtain ⟨sid, sess⟩ := hd
          simp only [Manager.handleCommand] at hok
          cases haddp : sess.addPlayer p with
          | error e =>
              rw [haddp] at hok
              simp only [Option.some.injEq, Prod.mk.injEq] at hok
              obtain ⟨-, hm1, -⟩ := hok
              subst hm1
              exact ⟨hndW, hndP, hdisj, hfW, hfP, hcount⟩
          | ok pair =>
              obtain ⟨s', started⟩ := pair
              rw [haddp] at hok
              simp only [Option.some.injEq, Prod.mk.injEq] at hok
              obtain ⟨-, hm1, -⟩ := hok
              subst hm1
              have hlook : mapLookup ((sid, sess) :: Wrest) sid = some sess := by
                simp [mapLookup]
              have hkeys := mapKeys_insert_mem ((sid, sess) :: Wrest) sid s' sess hlook
              have hlen := length_mapInsert_mem ((sid, sess) :: Wrest) sid s' sess hlook
              refine ⟨?_, hndP, ?_, ?_, hfP, ?_⟩
              · rw [show mapKeys (mapInsert ((sid, sess) :: Wrest) sid s') =
                    mapKeys ((sid, sess) :: Wrest) from hkeys]
                exact hndW
              · intro k hkW hkP
                rw [show mapKeys (mapInsert ((sid, sess) :: Wrest) sid s') =
                    mapKeys ((sid, sess) :: Wrest) from hkeys] at hkW
                exact hdisj k hkW hkP
              · intro k hk
                rw [show mapKeys (mapInsert ((sid, sess) :: Wrest) sid s') =
                    mapKeys ((sid, sess) :: Wrest) from hkeys] at hk
                exact hfW k hk
              · simp only
                omega

/-- A good run (every `EndSession` naming an in-progress id) preserves
the strengthened invariant. -/
theorem goodRun_inv (m m' : Manager) (cs : List Command)
    (hinv : Inv m) (h : GoodRun m cs m') : Inv m' := by
  induction h with
  | nil => exact hinv
  | cons hok hgood _ ih => exact ih (inv_handleCommand _ _ _ _ _ hinv hok hgood)

/-- C4 amended.  For every sequence of registry commands from the
initial state in which each `EndSession` names a session currently in
the in-progress partition, the claimed invariant holds between command
completions: the partitions are disjoint and the active count equals
the number of waiting plus in-progress sessions.  (As stated the claim
is false: an `EndSession` for an absent id still decrements the active
count, see the counterexample.) -/
theorem registry_invariant_good_runs (nS nP : Int) (qs : List Question)
    (cs : List Command) (m' : Manager)
    (h : GoodRun (initialManager nS nP qs) cs m') :
    (∀ k ∈ mapKeys m'.waitingRooms, k ∉ mapKeys m'.inProgress) ∧
    m'.activeCount = (m'.waitingRooms.length : Int) + (m'.inProgress.length : Int) := by
  have hinit : Inv (initialManager nS nP qs) := by
    refine ⟨?_, ?_, ?_, ?_, ?_, ?_⟩ <;> simp [initialManager, mapKeys]
  have hfin := goodRun_inv _ _ _ hinit h
  exact ⟨hfin.disj, hfin.count⟩

/-- C4 witness: the run join, move, end on a one-player one-session
registry, each step of which is a completed good command. -/
theorem registry_invariant_good_runs_witness :
    GoodRun (initialManager 1 1 [demoQ])
      [Command.joinSession demoAlice, Command.moveToInProgress 0, Command.endSession 0]
      demoEndedManager ∧
    ((∀ k ∈ mapKeys demoEndedManager.waitingRooms, k ∉ mapKeys demoEndedManager.inProgress) ∧
     demoEndedManager.activeCount = (demoEndedManager.waitingRooms.length : Int) +
       (demoEndedManager.inProgress.length : Int)) := by
  have hok1 : (initialManager 1 1 [demoQ]).handleCommand (.joinSession demoAlice) =
      some (⟨none, some 0⟩, demoJoinedManager, some 0) := by decide
  have hok2 : demoJoinedManager.handleCommand (.moveToInProgress 0) =
      some (⟨none, none⟩, demoMovedManager, none) := by decide
  have hok3 : demoMovedManager.handleCommand (.endSession 0) =
      some (⟨none, none⟩, demoEndedManager, none) := by decide
  have hrun : GoodRun (initialManager 1 1 [demoQ])
      [Command.joinSession demoAlice, Command.moveToInProgress 0, Command.endSession 0]
      demoEndedManager :=
    GoodRun.cons hok1 (by decide)
      (GoodRun.cons hok2 (by decide)
        (GoodRun.cons hok3 (by decide) (GoodRun.nil demoEndedManager)))
  exact ⟨hrun, registry_invariant_good_runs 1 1 [demoQ] _ demoEndedManager hrun⟩

/-! ## C5: join sequences filling the first session -/

theorem mapKeys_mkPlayers (ps : List Player) :
    mapKeys (mkPlayers ps) = ps.map Player.id := by
  simp [mapKeys, mkPlayers, Function.comp]

theorem length_mkPlayers (ps : List Player) : (mkPlayers ps).length = ps.length := by
  simp [mkPlayers]

theorem mkPlayers_append (ps : List Player) (p : Player) :
    mkPlayers (ps ++ [p]) = mkPlayers ps ++ [(p.id, freshPlayer p)] := by
  simp [mkPlayers]

/-- `AddPlayer` on the partially filled first session: a fresh player
id below capacity is appended with score zero, and the quiz starts
exactly when the new count reaches the maximum. -/
theorem addPlayer_sessionWith (nP : Int) (qs : List Question) (done : List Player) (p : Player)
    (hid : p.id ∉ done.map Player.id) (hlt : ((done.length : Nat) : Int) < nP) :
    (sessionWith nP qs done).addPlayer p =
      .ok (sessionWith nP qs (done ++ [p]),
           decide (((done.length + 1 : Nat) : Int) = nP)) := by
  have hlook : mapLookup (mkPlayers done) p.id = none :=
    (mapLookup_eq_none_iff _ _).mpr (by rw [mapKeys_mkPlayers]; exact hid)
  have happ := mapInsert_eq_append (mkPlayers done) p.id
    { name := p.name, id := p.id, score := 0, hasVoted := false } hlook
  have hc : (((sessionWith nP qs done).players.length : Nat) : Int) <
      (sessionWith nP qs done).maxPlayersPerSession := by
    simp [sessionWith, length_mkPlayers]
    exact hlt
  simp only [Session.addPlayer, if_pos hc]
  rw [show (sessionWith nP qs done).players = mkPlayers done from rfl, happ]
  simp [sessionWith, mkPlayers_append, freshPlayer, length_mkPlayers]

/-- A join that neither fills the waiting session nor creates one. -/
theorem joinOne_mid (nS nP : Int) (qs : List Question) (done : List Player) (p : Player)
    (hid : p.id ∉ done.map Player.id)
    (hlt : ((done.length + 1 : Nat) : Int) < nP) :
    (midManager nS nP qs done).joinOne p = some (midManager nS nP qs (done ++ [p]), 0) := by
  have hlt0 : ((done.length : Nat) : Int) < nP := by push_cast at hlt ⊢; omega
  have hadd := addPlayer_sessionWith nP qs done p hid hlt0
  have hfalse : decide (((done.length + 1 : Nat) : Int) = nP) = false :=
    decide_eq_false (by push_cast at hlt ⊢; omega)
  rw [hfalse] at hadd
  simp only [Manager.joinOne, Manager.handleCommand, midManager]
  rw [hadd]
  simp [mapInsert, midManager]

/-- The join that fills the waiting session: the session moves to the
in-progress partition, one transition. -/
theorem joinOne_fill (nS nP : Int) (qs : List Question) (done : List Player) (p : Player)
    (hid : p.id ∉ done.map Player.id)
    (heq : ((done.length + 1 : Nat) : Int) = nP) :
    (midManager nS nP qs done).joinOne p = some (doneManager nS nP qs (done ++ [p]), 1) := by
  have hlt0 : ((done.length : Nat) : Int) < nP := by push_cast at heq ⊢; omega
  have hadd := addPlayer_sessionWith nP qs done p hid hlt0
  have htrue : decide (((done.length + 1 : Nat) : Int) = nP) = true := decide_eq_true heq
  rw [htrue] at hadd
  simp only [Manager.joinOne, Manager.handleCommand, midManager]
  rw [hadd]
  simp [mapInsert, mapLookup, mapErase, doneManager]

/-- The first join: no waiting session exists yet, so a session is
created and the player added to it. -/
theorem joinOne_initial_mid (nS nP : Int) (qs : List Question) (p : Player)
    (hS : 1 ≤ nS) (hlt : (1 : Int) < nP) :
    (initialManager nS nP qs).joinOne p = some (midManager nS nP qs [p], 0) := by
  have hcap : ¬ nS ≤ (0 : Int) := by omega
  have hadd := addPlayer_sessionWith nP qs [] p (by simp) (by simp; omega)
  have hfalse : decide ((((List.length ([] : List Player)) + 1 : Nat) : Int) = nP) = false :=
    decide_eq_false (by simp; omega)
  rw [hfalse] at hadd
  simp only [Manager.joinOne, Manager.handleCommand, Manager.createSession,
    initialManager, if_neg hcap]
  rw [show (Session.mk 0 nP qs [] 0) = sessionWith nP qs [] from rfl]
  have hlook : mapLookup (mapInsert ([] : List (Nat × Session)) 0 (sessionWith nP qs [])) 0 =
      some (sessionWith nP qs []) := by simp [mapInsert, mapLookup]
  simp only [hlook, hadd]
  simp [mapInsert, midManager]

/-- The first join when the capacity is one: create, add, fill, move. -/
theorem joinOne_initial_fill (nS nP : Int) (qs : List Question) (p : Player)
    (hS : 1 ≤ nS) (heq : (1 : Int) = nP) :
    (initialManager nS nP qs).joinOne p = some (doneManager nS nP qs [p], 1) := by
  have hcap : ¬ nS ≤ (0 : Int) := by omega
  have hadd := addPlayer_sessionWith nP qs [] p (by simp) (by simp; omega)
  have htrue : decide ((((List.length ([] : List Player)) + 1 : Nat) : Int) = nP) = true :=
    decide_eq_true (by simpa using heq)
  rw [htrue] at hadd
  simp only [Manager.joinOne, Manager.handleCommand, Manager.createSession,
    initialManager, if_neg hcap]
  rw [show (Session.mk 0 nP qs [] 0) = sessionWith nP qs [] from rfl]
  have hlook : mapLookup (mapInsert ([] : List (Nat × Session)) 0 (sessionWith nP qs [])) 0 =
      some (sessionWith nP qs []) := by simp [mapInsert, mapLookup]
  simp only [hlook, hadd]
  simp [mapInsert, mapLookup, mapErase, doneManager]

/-- Joining the remaining players of a distinct-id sequence into the
partially filled waiting session ends with the session in progress,
holding everyone, after exactly one transition. -/
theorem joinAll_mid (nS nP : Int) (qs : List Question) :
    ∀ (rest done : List Player), rest ≠ [] →
      (((done.length + rest.length : Nat) : Int) = nP) →
      (((done ++ rest).map Player.id)).Nodup →
      joinAll (midManager nS nP qs done) rest =
        some (doneManager nS nP qs (done ++ rest), 1)
  | [], _, hne, _, _ => absurd rfl hne
  | [p], done, _, hlen, hnd => by
      have hid : p.id ∉ done.map Player.id := by
        rw [List.map_append] at hnd
        rcases List.nodup_append.mp hnd with ⟨-, -, hdisj2⟩
        exact fun hmem => hdisj2 hmem (by simp)
      have heq : ((done.length + 1 : Nat) : Int) = nP := hlen
      simp [joinAll, joinOne_fill nS nP qs done p hid heq]
  | p :: q :: rest, done, _, hlen, hnd => by
      have hid : p.id ∉ done.map Player.id := by
        rw [List.map_append] at hnd
        rcases List.nodup_append.mp hnd with ⟨-, -, hdisj2⟩
        exact fun hmem => hdisj2 hmem (by simp)
      have hlen0 : ((done.length + (rest.length + 2) : Nat) : Int) = nP := hlen
      have hlt : ((done.length + 1 : Nat) : Int) < nP := by
        push_cast at hlen0 ⊢
        omega
      have hlen2 : ((((done ++ [p]).length + (q :: rest).length : Nat) : Int) = nP) := by
        simp only [List.length_append, List.length_cons, List.length_nil]
        push_cast at hlen0 ⊢
        omega
      have hnd2 : (((done ++ [p]) ++ q :: rest).map Player.id).Nodup := by
        rw [List.append_assoc]
        simpa using hnd
      have ih := joinAll_mid nS nP qs (q :: rest) (done ++ [p]) (by simp) hlen2 hnd2
      rw [List.append_assoc] at ih
      simp only [List.singleton_append] at ih
      have step1 : joinAll (midManager nS nP qs done) (p :: q :: rest) =
          (match (midManager nS nP qs done).joinOne p with
           | none => none
           | some (m1, k) =>
             match joinAll m1 (q :: rest) with
             | none => none
             | some (m2, k') => some (m2, k + k')) := rfl
      rw [step1, joinOne_mid nS nP qs done p hid hlt]
      show (match joinAll (midManager nS nP qs (done ++ [p])) (q :: rest) with
            | none => none
            | some (m2, k') => some (m2, 0 + k')) =
        some (doneManager nS nP qs (done ++ p :: q :: rest), 1)
      rw [ih]

/-- C5 counterexample.  With maxPlayers 2, two joins by the same
player id leave one session waiting with a single player and make no
waiting-to-in-progress transition: it is not the case that every join
sequence of length maxPlayers fills a session. -/
theorem joinAll_duplicate_no_transition :
    joinAll (initialManager 1 2 [demoQ]) [demoAlice, demoAlice] =
      some (demoDupManager, 0) ∧
    demoDupManager.inProgress = [] := by
  constructor
  · rfl
  · rfl

/-- C5 amended.  For every sequence of `JoinSession` calls of length
equal to the per-session maximum (at least one) whose player ids are
pairwise distinct, starting from an empty registry with room for a
session: exactly one session reaches the in-progress partition, via
exactly one transition, and it holds exactly maxPlayers players whose
id set is the submitted ids, duplicate-free.  (As stated — without the
distinctness of ids — the claim fails: a duplicate id overwrites.) -/
theorem joins_fill_exactly_once (nS nP : Int) (qs : List Question) (ps : List Player)
    (hS : 1 ≤ nS) (hpos : 1 ≤ nP)
    (hlen : ((ps.length : Nat) : Int) = nP)
    (hnd : (ps.map Player.id).Nodup) :
    joinAll (initialManager nS nP qs) ps = some (doneManager nS nP qs ps, 1) ∧
    mapKeys (sessionWith nP qs ps).players = ps.map Player.id ∧
    (((sessionWith nP qs ps).players.length : Nat) : Int) = nP ∧
    (mapKeys (sessionWith nP qs ps).players).Nodup := by
  have hkeys : mapKeys (sessionWith nP qs ps).players = ps.map Player.id := by
    simp [sessionWith, mapKeys_mkPlayers]
  have hplen : (((sessionWith nP qs ps).players.length : Nat) : Int) = nP := by
    simp [sessionWith, length_mkPlayers]
    simpa using hlen
  refine ⟨?_, hkeys, hplen, by rw [hkeys]; exact hnd⟩
  cases ps with
  | nil =>
      exfalso
      simp at hlen
      omega
  | cons p rest =>
      cases rest with
      | nil =>
          have heq : (1 : Int) = nP := by simpa using hlen
          simp [joinAll, joinOne_initial_fill nS nP qs p hS heq]
      | cons q rest' =>
          have hlen0 : (((rest'.length + 2 : Nat)) : Int) = nP := hlen
          have hlt : (1 : Int) < nP := by
            push_cast at hlen0 ⊢
            omega
          have hlen2 : ((([p].length + (q :: rest').length : Nat) : Int) = nP) := by
            simp only [List.length_cons, List.length_nil]
            push_cast at hlen0 ⊢
            omega
          have hnd2 : (([p] ++ q :: rest').map Player.id).Nodup := by simpa using hnd
          have ih := joinAll_mid nS nP qs (q :: rest') [p] (by simp) hlen2 hnd2
          simp only [List.singleton_append] at ih
          have step1 : joinAll (initialManager nS nP qs) (p :: q :: rest') =
              (match (initialManager nS nP qs).joinOne p with
               | none => none
               | some (m1, k) =>
                 match joinAll m1 (q :: rest') with
                 | none => none
                 | some (m2, k') => some (m2, k + k')) := rfl
          rw [step1, joinOne_initial_mid nS nP qs p hS hlt]
          show (match joinAll (midManager nS nP qs [p]) (q :: rest') with
                | none => none
                | some (m2, k') => some (m2, 0 + k')) =
            some (doneManager nS nP qs (p :: q :: rest'), 1)
          rw [ih]

/-- C5 witness: two distinct players joining a capacity-two registry. -/
theorem joins_fill_exactly_once_witness :
    (1 : Int) ≤ 1 ∧ (1 : Int) ≤ 2 ∧
    ((([demoAlice, demoCarol].length : Nat) : Int) = 2) ∧
    ([demoAlice, demoCarol].map Player.id).Nodup ∧
    (joinAll (initialManager 1 2 [demoQ]) [demoAlice, demoCarol] =
        some (doneManager 1 2 [demoQ] [demoAlice, demoCarol], 1) ∧
      mapKeys (sessionWith 2 [demoQ] [demoAlice, demoCarol]).players =
        [demoAlice, demoCarol].map Player.id ∧
      (((sessionWith 2 [demoQ] [demoAlice, demoCarol]).players.length : Nat) : Int) = 2 ∧
      (mapKeys (sessionWith 2 [demoQ] [demoAlice, demoCarol]).players).Nodup) :=
  ⟨by decide, by decide, by decide, by decide,
   joins_fill_exactly_once 1 2 [demoQ] [demoAlice, demoCarol]
     (by decide) (by decide) (by decide) (by decide)⟩

end QuizGame
